import Mathlib

/-!
# Verification of `src/pages/api/cron/query-stats.ts`

A shallow embedding of the query-stats cron job: the batch selector
(`trimQueries` plus overflow eviction), the anonymization driver
(`processProjectQueryStats`), and the HTTP `handler`.  Store and LLM
effects are modelled by an explicit environment (what the store fetch
returned, what the LLM replied) and an explicit trace of the operations
the job issues (deletes, the LLM request, the metering write, the row
updates, the returned count).
-/

set_option autoImplicit false

namespace QueryStats

/-- The `QueryStatData` row shape selected from the store:
`{ id: string; prompt: string | null; response: string | null }`. -/
structure QueryStatData where
  id : String
  prompt : Option String
  response : Option String
deriving DecidableEq, Repr

/-- Abstract estimated token cost of one record.  In the source,
`estimateQueryTokenCount q = approximatedTokenCount(JSON.stringify(q))`;
`approximatedTokenCount` and the JSON serialization live outside `src/`.
Modelled from the spec: "length-based approximation of the record's full
JSON-serialized byte size" — a Nat-valued function of the record, kept
abstract as a parameter `estCost` throughout. -/
def CostFn : Type := QueryStatData → Nat

/-- Loop body of `trimQueries`, carrying the running `tokenCount`
accumulator.  Mirrors:
`tokenCount += estimateQueryTokenCount(query);
 if (tokenCount >= maxTokens) break; trimmedQueries.push(query);`. -/
def trimQueriesAux (estCost : CostFn) (maxTokens : Nat) :
    Nat → List QueryStatData → List QueryStatData
  | _, [] => []
  | tokenCount, q :: rest =>
    let tokenCount' := tokenCount + estCost q
    if maxTokens ≤ tokenCount' then []
    else q :: trimQueriesAux estCost maxTokens tokenCount' rest

/-- `trimQueries(queries, maxTokens)` from the source: greedy trim of the
given list under the running-total budget, starting from `tokenCount = 0`. -/
def trimQueries (estCost : CostFn) (queries : List QueryStatData)
    (maxTokens : Nat) : List QueryStatData :=
  trimQueriesAux estCost maxTokens 0 queries

/-- Total estimated cost of a list of records. -/
def costSum (estCost : CostFn) (l : List QueryStatData) : Nat :=
  (l.map estCost).sum

/-- The ids the overflow-eviction step collects:
`queries.map(q => cost(q) > maxTokens ? q.id : null).filter(isPresent)`. -/
def overflowingQueryIds (estCost : CostFn) (queries : List QueryStatData)
    (maxTokens : Nat) : List String :=
  queries.filterMap fun q => if maxTokens < estCost q then some q.id else none

/-- The batch construction as the spec's words describe it, for comparison
with the code's: first remove the overflow-evicted records (those whose
individual cost exceeds the threshold), then run the greedy trim over the
records remaining, in their fetched order. -/
def selectBatchPerSpec (estCost : CostFn) (queries : List QueryStatData)
    (maxTokens : Nat) : List QueryStatData :=
  trimQueries estCost (queries.filter fun q => decide (estCost q ≤ maxTokens))
    maxTokens

/-! ## The anonymization driver `processProjectQueryStats` -/

/-- Outcome of the completion round trip, as the driver inspects it.
`apiError` models `json.error` being present.  `success totalTokens parsed`
models an error-free response: `totalTokens` is `safeParseInt(json.usage.
total_tokens, 0)`, and `parsed` is the result of `JSON.parse` on the
completion text (`none` when the parse throws, `some entries` when the
text parses as a `QueryStatData[]` array).  The text extraction
(`getCompletionsResponseText`) lives outside `src/`; modelled from the
spec: "response includes usage token counts and a completion text field". -/
inductive LLMResult where
  | apiError : LLMResult
  | success (totalTokens : Nat) (parsed : Option (List QueryStatData)) : LLMResult
deriving DecidableEq, Repr

/-- External inputs of one `processProjectQueryStats` invocation.
`fetched` is the store read of up to 10 unprocessed rows (`none` models a
null `data`).  `updateErr` tells, per id, whether the store reports an
error for that row's update; in the source this error is only logged and
never alters control flow. -/
structure ProjectEnv where
  fetched : Option (List QueryStatData)
  llm : LLMResult
  updateErr : String → Bool

/-- One `update({ processed: true, prompt, response }).eq('id', matchId)`
operation: the fields written and the sole matching criterion. -/
structure StoreUpdate where
  matchId : String
  processed : Bool
  prompt : Option String
  response : Option String
deriving DecidableEq, Repr

/-- Trace of the operations a single driver invocation issues.
`deletedIds` is the id list of the overflow delete (empty when no delete
is issued); `llmBatch` is `some batch` exactly when the completion request
is sent, carrying the trimmed batch embedded in the prompt;
`tokensRecorded` is the metering write (token count, source label);
`updates` are the row updates, in order; `returned` is the count. -/
structure RunTrace where
  deletedIds : List String
  llmBatch : Option (List QueryStatData)
  tokensRecorded : Option (Nat × String)
  updates : List StoreUpdate
  returned : Nat
deriving DecidableEq, Repr

/-- The update the driver issues for one parsed entry. -/
def entryUpdate (e : QueryStatData) : StoreUpdate :=
  { matchId := e.id, processed := true, prompt := e.prompt, response := e.response }

/-- `processProjectQueryStats(projectId)` as a trace-producing function of
its external inputs.  Control flow follows the source: null/empty fetch
returns 0 before anything else; the overflow delete and the trim both work
on the fetched list (`trimQueries(queries, maxTokens)` is called on the
unfiltered `queries`); the LLM request is then always sent; `json.error`
returns 0; otherwise the metering write happens, then the parse; a parse
failure returns 0; parsed entries each get an update and the entry count
is returned regardless of per-row update errors. -/
def processProjectQueryStats (estCost : CostFn) (maxTokens : Nat)
    (env : ProjectEnv) : RunTrace :=
  match env.fetched with
  | none =>
    { deletedIds := [], llmBatch := none, tokensRecorded := none,
      updates := [], returned := 0 }
  | some queries =>
    if queries.length = 0 then
      { deletedIds := [], llmBatch := none, tokensRecorded := none,
        updates := [], returned := 0 }
    else
      let overflowIds := overflowingQueryIds estCost queries maxTokens
      let trimmedQueries := trimQueries estCost queries maxTokens
      match env.llm with
      | .apiError =>
        { deletedIds := overflowIds, llmBatch := some trimmedQueries,
          tokensRecorded := none, updates := [], returned := 0 }
      | .success totalTokens parsed =>
        match parsed with
        | none =>
          { deletedIds := overflowIds, llmBatch := some trimmedQueries,
            tokensRecorded := some (totalTokens, "query-stats"),
            updates := [], returned := 0 }
        | some entries =>
          { deletedIds := overflowIds, llmBatch := some trimmedQueries,
            tokensRecorded := some (totalTokens, "query-stats"),
            updates := entries.map entryUpdate,
            returned := entries.length }

/-! ## Store semantics for updates -/

/-- A row of the `query_stats` table as the updates see it.  `projectId`
is the tenant column; `extra` stands for any further column (e.g. the
creation timestamp) no update of this job writes. -/
structure StoreRow where
  id : String
  projectId : String
  prompt : Option String
  response : Option String
  processed : Bool
  extra : Nat
deriving DecidableEq, Repr

/-- Effect of one update on one row: `.eq('id', matchId)` matches by id
alone, and only `processed`, `prompt`, `response` are written. -/
def updateRow (u : StoreUpdate) (r : StoreRow) : StoreRow :=
  if r.id = u.matchId then
    { r with processed := u.processed, prompt := u.prompt, response := u.response }
  else r

/-- Effect of one update on the whole table. -/
def applyUpdate (rows : List StoreRow) (u : StoreUpdate) : List StoreRow :=
  rows.map (updateRow u)

/-- Effect of a sequence of updates, applied in order. -/
def applyUpdates (rows : List StoreRow) (us : List StoreUpdate) : List StoreRow :=
  us.foldl applyUpdate rows

/-- The final state of one row after a sequence of updates. -/
def rowAfter (us : List StoreUpdate) (r : StoreRow) : StoreRow :=
  us.foldl (fun r' u => updateRow u r') r

/-! ## The HTTP handler -/

/-- `allowedMethods = ['GET']`. -/
def allowedMethods : List String := ["GET"]

/-- The guard `!req.method || !allowedMethods.includes(req.method)`:
`none` models a missing method, and an empty string is falsy. -/
def methodAllowed : Option String → Bool
  | none => false
  | some m => !(m = "") && allowedMethods.contains m

/-- String interpolation of `req.method` in the 405 body. -/
def methodText : Option String → String
  | none => "undefined"
  | some m => m

/-- Truthiness of an optional string query parameter / column value. -/
def optTruthy : Option String → Bool
  | none => false
  | some s => !(s = "")

/-- External inputs of one handler invocation: the request method and
`projectId` parameter, the rows of
`v_distinct_unprocessed_query_stats_project_ids` (`none` for a null
`data`, each row's `project_id` nullable), and each project's driver
environment. -/
structure HandlerEnv where
  method : Option String
  projectIdParam : Option String
  unprocessedProjects : Option (List (Option String))
  projectEnv : String → ProjectEnv

/-- What the handler sends back, together with the driver invocations it
performed.  `allowHeader` is the `Allow` header when set; exactly one of
`errorBody` (the 405 `{ error }` body) and `okBody` (the 200
`{ status: 'ok', processed }` body) is present. -/
structure HandlerResult where
  status : Nat
  allowHeader : Option (List String)
  errorBody : Option String
  okBody : Option (String × Nat)
  runs : List (String × RunTrace)

/-- The exported request handler. -/
def handler (estCost : CostFn) (maxTokens : Nat) (env : HandlerEnv) :
    HandlerResult :=
  if !(methodAllowed env.method) then
    { status := 405, allowHeader := some allowedMethods,
      errorBody := some ("Method " ++ methodText env.method ++ " Not Allowed"),
      okBody := none, runs := [] }
  else if optTruthy env.projectIdParam then
    let p := env.projectIdParam.getD ""
    let tr := processProjectQueryStats estCost maxTokens (env.projectEnv p)
    { status := 200, allowHeader := none, errorBody := none,
      okBody := some ("ok", tr.returned), runs := [(p, tr)] }
  else
    match env.unprocessedProjects with
    | none =>
      { status := 200, allowHeader := none, errorBody := none,
        okBody := some ("ok", 0), runs := [] }
    | some rows =>
      let runs := rows.filterMap fun pid? =>
        if optTruthy pid? then
          let p := pid?.getD ""
          some (p, processProjectQueryStats estCost maxTokens (env.projectEnv p))
        else none
      { status := 200, allowHeader := none, errorBody := none,
        okBody := some ("ok", (runs.map fun r => r.2.returned).sum),
        runs := runs }

/-! ## Concrete example inputs used in witnesses and counterexamples -/

/-- A concrete realizable cost function: cost of a record by the length of
its id string. -/
def exCost : CostFn := fun q => q.id.length

/-- A small record of cost 1 under `exCost`. -/
def qA : QueryStatData := ⟨"a", none, none⟩

/-- A small record of cost 2 under `exCost`. -/
def qB : QueryStatData := ⟨"bb", some "x", none⟩

/-- An oversized record of cost 10 under `exCost`. -/
def bigQ : QueryStatData := ⟨"0123456789", none, none⟩

/-- A record of cost exactly 5 under `exCost`: with budget 5 it survives
overflow eviction (not strictly greater) but can never be batched. -/
def fiveQ : QueryStatData := ⟨"abcde", none, none⟩

/-- A parsed model entry with anonymized text for id `"a"`. -/
def entA : QueryStatData := ⟨"a", some "anonymized q", some "anonymized r"⟩

/-- An update-error oracle reporting no error. -/
def noUpdateErr : String → Bool := fun _ => false

/-- Driver environment whose store fetch returns null. -/
def envFetchNone : ProjectEnv := ⟨none, LLMResult.apiError, noUpdateErr⟩

/-- Driver environment: one record of cost 5, model answers with one
parsed entry. -/
def envTrimAll : ProjectEnv :=
  ⟨some [fiveQ], LLMResult.success 7 (some [entA]), noUpdateErr⟩

/-- Driver environment: two small records, model returns an empty array. -/
def envTwoSmall : ProjectEnv :=
  ⟨some [qA, qB], LLMResult.success 3 (some []), noUpdateErr⟩

/-- Driver environment: one oversized and one small record, model answers
with one parsed entry. -/
def envMixed : ProjectEnv :=
  ⟨some [bigQ, qA], LLMResult.success 2 (some [entA]), noUpdateErr⟩

/-- Driver environment: one small record, the LLM reports an API error. -/
def envApiErr : ProjectEnv := ⟨some [qA], LLMResult.apiError, noUpdateErr⟩

/-- Driver environment: one small record, completion text does not parse. -/
def envBadParse : ProjectEnv :=
  ⟨some [qA], LLMResult.success 9 none, noUpdateErr⟩

/-- Handler environment for a POST request. -/
def envPOST : HandlerEnv := ⟨some "POST", none, none, fun _ => envFetchNone⟩

/-- A store row of a DIFFERENT tenant whose id happens to equal a parsed
entry's id: used to exhibit that updates match by id alone. -/
def exRow : StoreRow := ⟨"a", "other-project", some "raw q", some "raw r", false, 42⟩

/-! ## Lemmas about the greedy trim -/

theorem trimQueriesAux_sum_lt (estCost : CostFn) (maxTokens : Nat) :
    ∀ (l : List QueryStatData) (tc : Nat), tc < maxTokens →
      tc + costSum estCost (trimQueriesAux estCost maxTokens tc l) < maxTokens := by
  intro l
  induction l with
  | nil =>
    intro tc htc
    simpa [trimQueriesAux, costSum] using htc
  | cons q rest ih =>
    intro tc htc
    by_cases h : maxTokens ≤ tc + estCost q
    · simpa [trimQueriesAux, h, costSum] using htc
    · have h' : tc + estCost q < maxTokens := Nat.lt_of_not_le h
      have := ih (tc + estCost q) h'
      simp only [costSum] at this
      simp only [trimQueriesAux, if_neg h, costSum, List.map_cons, List.sum_cons]
      omega

/-- The trimmed batch's total estimated cost is strictly below the budget
(provided the budget is positive, as it is in the source where it equals
half the context-window cutoff). -/
theorem trimQueries_sum_lt (estCost : CostFn) (queries : List QueryStatData)
    (maxTokens : Nat) (hpos : 0 < maxTokens) :
    costSum estCost (trimQueries estCost queries maxTokens) < maxTokens := by
  have := trimQueriesAux_sum_lt estCost maxTokens queries 0 hpos
  simpa [trimQueries] using this

/-- Every prefix of the trimmed batch is also strictly below budget:
the invariant holds after every individual addition during construction. -/
theorem trimQueries_take_sum_lt (estCost : CostFn) (queries : List QueryStatData)
    (maxTokens : Nat) (hpos : 0 < maxTokens) (k : Nat) :
    costSum estCost ((trimQueries estCost queries maxTokens).take k) < maxTokens := by
  have htot := trimQueries_sum_lt estCost queries maxTokens hpos
  have hsplit :
      costSum estCost ((trimQueries estCost queries maxTokens).take k) ≤
        costSum estCost (trimQueries estCost queries maxTokens) := by
    have := List.sum_take_add_sum_drop
      ((trimQueries estCost queries maxTokens).map estCost) k
    simp only [costSum, List.map_take]
    omega
  omega

theorem trimQueriesAux_eq_take (estCost : CostFn) (maxTokens : Nat) :
    ∀ (l : List QueryStatData) (tc : Nat),
      ∃ k, trimQueriesAux estCost maxTokens tc l = l.take k := by
  intro l
  induction l with
  | nil => intro tc; exact ⟨0, rfl⟩
  | cons q rest ih =>
    intro tc
    by_cases h : maxTokens ≤ tc + estCost q
    · exact ⟨0, by simp [trimQueriesAux, h]⟩
    · obtain ⟨k, hk⟩ := ih (tc + estCost q)
      exact ⟨k + 1, by simp [trimQueriesAux, h, hk]⟩

/-- The greedy trim returns a prefix of its input list: order-preserving,
nothing past the stopping point. -/
theorem trimQueries_eq_take (estCost : CostFn) (queries : List QueryStatData)
    (maxTokens : Nat) :
    ∃ k, trimQueries estCost queries maxTokens = queries.take k :=
  trimQueriesAux_eq_take estCost maxTokens queries 0

theorem trimQueriesAux_maximal (estCost : CostFn) (maxTokens : Nat) :
    ∀ (l : List QueryStatData) (tc j : Nat), j ≤ l.length →
      tc + costSum estCost (l.take j) < maxTokens →
      j ≤ (trimQueriesAux estCost maxTokens tc l).length := by
  intro l
  induction l with
  | nil =>
    intro tc j hj _
    simp only [trimQueriesAux, List.length_nil] at hj ⊢
    omega
  | cons q rest ih =>
    intro tc j hj hsum
    match j with
    | 0 => exact Nat.zero_le _
    | j' + 1 =>
      simp only [List.take_succ_cons, costSum, List.map_cons, List.sum_cons] at hsum
      have hlt : tc + estCost q < maxTokens := by omega
      have hnot : ¬ maxTokens ≤ tc + estCost q := Nat.not_le_of_lt hlt
      simp only [trimQueriesAux, if_neg hnot, List.length_cons]
      have hj' : j' ≤ rest.length := by simpa using hj
      have := ih (tc + estCost q) j' hj' (by simp only [costSum]; omega)
      omega

/-- Maximality of the greedy trim: any prefix of the input whose total
cost is below budget is no longer than the trimmed batch. -/
theorem trimQueries_maximal (estCost : CostFn) (queries : List QueryStatData)
    (maxTokens : Nat) (j : Nat) (hj : j ≤ queries.length)
    (hsum : costSum estCost (queries.take j) < maxTokens) :
    j ≤ (trimQueries estCost queries maxTokens).length := by
  have := trimQueriesAux_maximal estCost maxTokens queries 0 j hj (by simpa using hsum)
  simpa [trimQueries] using this

/-- A record whose individual cost meets or exceeds the budget is never in
the trimmed batch: adding it always trips the `tokenCount >= maxTokens`
break before the push. -/
theorem not_mem_trimQueriesAux (estCost : CostFn) (maxTokens : Nat)
    (q : QueryStatData) (hq : maxTokens ≤ estCost q) :
    ∀ (l : List QueryStatData) (tc : Nat),
      q ∉ trimQueriesAux estCost maxTokens tc l := by
  intro l
  induction l with
  | nil => intro tc; simp [trimQueriesAux]
  | cons p rest ih =>
    intro tc
    by_cases h : maxTokens ≤ tc + estCost p
    · simp [trimQueriesAux, h]
    · simp only [trimQueriesAux, if_neg h, List.mem_cons, not_or]
      refine ⟨?_, ih (tc + estCost p)⟩
      intro hqp
      subst hqp
      exact h (Nat.le_trans hq (Nat.le_add_left _ _))

theorem not_mem_trimQueries (estCost : CostFn) (maxTokens : Nat)
    (q : QueryStatData) (hq : maxTokens ≤ estCost q)
    (queries : List QueryStatData) :
    q ∉ trimQueries estCost queries maxTokens :=
  not_mem_trimQueriesAux estCost maxTokens q hq queries 0

/-! ## Shape lemmas for the driver trace -/

theorem run_fetch_none (estCost : CostFn) (maxTokens : Nat) (env : ProjectEnv)
    (h : env.fetched = none) :
    processProjectQueryStats estCost maxTokens env = ⟨[], none, none, [], 0⟩ := by
  simp [processProjectQueryStats, h]

theorem run_fetch_nil (estCost : CostFn) (maxTokens : Nat) (env : ProjectEnv)
    (h : env.fetched = some []) :
    processProjectQueryStats estCost maxTokens env = ⟨[], none, none, [], 0⟩ := by
  simp [processProjectQueryStats, h]

theorem run_apiError (estCost : CostFn) (maxTokens : Nat) (env : ProjectEnv)
    (qs : List QueryStatData) (h : env.fetched = some qs) (hne : qs ≠ [])
    (hllm : env.llm = LLMResult.apiError) :
    processProjectQueryStats estCost maxTokens env =
      ⟨overflowingQueryIds estCost qs maxTokens,
       some (trimQueries estCost qs maxTokens), none, [], 0⟩ := by
  have hlen : ¬ qs.length = 0 := by simpa [List.length_eq_zero] using hne
  simp [processProjectQueryStats, h, hlen, hllm]

theorem run_parse_fail (estCost : CostFn) (maxTokens : Nat) (env : ProjectEnv)
    (qs : List QueryStatData) (t : Nat) (h : env.fetched = some qs)
    (hne : qs ≠ []) (hllm : env.llm = LLMResult.success t none) :
    processProjectQueryStats estCost maxTokens env =
      ⟨overflowingQueryIds estCost qs maxTokens,
       some (trimQueries estCost qs maxTokens),
       some (t, "query-stats"), [], 0⟩ := by
  have hlen : ¬ qs.length = 0 := by simpa [List.length_eq_zero] using hne
  simp [processProjectQueryStats, h, hlen, hllm]

theorem run_parsed (estCost : CostFn) (maxTokens : Nat) (env : ProjectEnv)
    (qs entries : List QueryStatData) (t : Nat) (h : env.fetched = some qs)
    (hne : qs ≠ []) (hllm : env.llm = LLMResult.success t (some entries)) :
    processProjectQueryStats estCost maxTokens env =
      ⟨overflowingQueryIds estCost qs maxTokens,
       some (trimQueries estCost qs maxTokens),
       some (t, "query-stats"), entries.map entryUpdate, entries.length⟩ := by
  have hlen : ¬ qs.length = 0 := by simpa [List.length_eq_zero] using hne
  simp [processProjectQueryStats, h, hlen, hllm]

/-! ## Lemmas about the store-update semantics -/

theorem applyUpdates_eq_map :
    ∀ (us : List StoreUpdate) (rows : List StoreRow),
      applyUpdates rows us = rows.map (rowAfter us) := by
  intro us
  induction us with
  | nil =>
    intro rows
    have h : rowAfter ([] : List StoreUpdate) = id := rfl
    show rows = rows.map (rowAfter [])
    rw [h, List.map_id]
  | cons u us ih =>
    intro rows
    show applyUpdates (applyUpdate rows u) us = rows.map (rowAfter (u :: us))
    rw [ih]
    simp only [applyUpdate, List.map_map]
    rfl

theorem rowAfter_frame :
    ∀ (us : List StoreUpdate) (r : StoreRow),
      (rowAfter us r).id = r.id ∧ (rowAfter us r).projectId = r.projectId ∧
        (rowAfter us r).extra = r.extra := by
  intro us
  induction us with
  | nil => intro r; exact ⟨rfl, rfl, rfl⟩
  | cons u us ih =>
    intro r
    have h := ih (updateRow u r)
    have hu : (updateRow u r).id = r.id ∧ (updateRow u r).projectId = r.projectId ∧
        (updateRow u r).extra = r.extra := by
      unfold updateRow; split <;> simp
    exact ⟨h.1.trans hu.1, h.2.1.trans hu.2.1, h.2.2.trans hu.2.2⟩

theorem rowAfter_no_match :
    ∀ (us : List StoreUpdate) (r : StoreRow),
      (∀ u ∈ us, r.id ≠ u.matchId) → rowAfter us r = r := by
  intro us
  induction us with
  | nil => intro r _; rfl
  | cons u us ih =>
    intro r h
    have hu : updateRow u r = r := by
      unfold updateRow
      rw [if_neg (h u (List.mem_cons_self u us))]
    show rowAfter us (updateRow u r) = r
    rw [hu]
    exact ih r fun u' hu' => h u' (List.mem_cons_of_mem u hu')

theorem rowAfter_entryUpdates_match :
    ∀ (entries : List QueryStatData) (r : StoreRow),
      r.id ∈ entries.map QueryStatData.id →
      (rowAfter (entries.map entryUpdate) r).processed = true ∧
      ∃ e ∈ entries, e.id = r.id ∧
        (rowAfter (entries.map entryUpdate) r).prompt = e.prompt ∧
        (rowAfter (entries.map entryUpdate) r).response = e.response := by
  intro entries
  induction entries with
  | nil => intro r h; simp at h
  | cons e rest ih =>
    intro r h
    have hstep :
        rowAfter ((e :: rest).map entryUpdate) r =
          rowAfter (rest.map entryUpdate) (updateRow (entryUpdate e) r) := rfl
    by_cases he : r.id = e.id
    · have hid : (updateRow (entryUpdate e) r).id = r.id := by
        simp [updateRow, entryUpdate, he]
      have hproc1 : (updateRow (entryUpdate e) r).processed = true := by
        simp [updateRow, entryUpdate, he]
      have hp1 : (updateRow (entryUpdate e) r).prompt = e.prompt := by
        simp [updateRow, entryUpdate, he]
      have hrr1 : (updateRow (entryUpdate e) r).response = e.response := by
        simp [updateRow, entryUpdate, he]
      by_cases hm : r.id ∈ rest.map QueryStatData.id
      · obtain ⟨hproc, e', he', hid', hp, hr⟩ :=
          ih (updateRow (entryUpdate e) r) (by rw [hid]; exact hm)
        rw [hstep]
        refine ⟨hproc, e', List.mem_cons_of_mem e he', ?_, hp, hr⟩
        rw [hid', hid]
      · have hnm : ∀ u ∈ rest.map entryUpdate,
            (updateRow (entryUpdate e) r).id ≠ u.matchId := by
          intro u hu
          obtain ⟨e'', he'', rfl⟩ := List.mem_map.mp hu
          show (updateRow (entryUpdate e) r).id ≠ e''.id
          rw [hid]
          intro hcontra
          exact hm (List.mem_map.mpr ⟨e'', he'', hcontra.symm⟩)
        have hend :
            rowAfter ((e :: rest).map entryUpdate) r =
              updateRow (entryUpdate e) r := by
          rw [hstep]
          exact rowAfter_no_match (rest.map entryUpdate) _ hnm
        rw [hend]
        exact ⟨hproc1, e, List.mem_cons_self e rest, he.symm, hp1, hrr1⟩
    · have hr' : updateRow (entryUpdate e) r = r := by
        simp [updateRow, entryUpdate, he]
      have hmem : r.id ∈ rest.map QueryStatData.id := by
        simp only [List.map_cons, List.mem_cons] at h
        rcases h with h | h
        · exact absurd h he
        · exact h
      rw [hstep, hr']
      obtain ⟨hproc, e', he', hid', hp, hr⟩ := ih r hmem
      exact ⟨hproc, e', List.mem_cons_of_mem e he', hid', hp, hr⟩

/-! ## The claims -/

/-- C1 is refuted: the greedy trim does not iterate the records remaining
after overflow eviction — it iterates the original fetched list.  With
fetched records `[bigQ, qA]` and budget 5, the record remaining after
eviction is `[qA]`, whose longest under-budget prefix is `[qA]` itself,
but `trimQueries` (called on the unfiltered list, as in the source) stops
at the oversized head and returns the empty batch. -/
theorem C1_counterexample :
    selectBatchPerSpec exCost [bigQ, qA] 5 = [qA] ∧
    trimQueries exCost [bigQ, qA] 5 = [] ∧
    ([] : List QueryStatData) ≠ [qA] := by decide

/-- C1 (amended): the batch submitted to the LLM is exactly the longest
prefix of the FETCHED records (overflow-evicted records are not removed
from the iterated list) whose cumulative estimated cost stays strictly
below the budget; no record after the stopping point is included and no
record is reordered. -/
theorem C1_amended (estCost : CostFn) (maxTokens : Nat) (env : ProjectEnv)
    (qs : List QueryStatData) (hf : env.fetched = some qs) (hne : qs ≠ [])
    (hpos : 0 < maxTokens) :
    ∃ B, (processProjectQueryStats estCost maxTokens env).llmBatch = some B ∧
      (∃ k, B = qs.take k) ∧ costSum estCost B < maxTokens ∧
      ∀ j, j ≤ qs.length → costSum estCost (qs.take j) < maxTokens →
        j ≤ B.length := by
  refine ⟨trimQueries estCost qs maxTokens, ?_, trimQueries_eq_take _ _ _,
    trimQueries_sum_lt _ _ _ hpos,
    fun j hj hsum => trimQueries_maximal _ _ _ j hj hsum⟩
  cases hllm : env.llm with
  | apiError => rw [run_apiError estCost maxTokens env qs hf hne hllm]
  | success t parsed =>
    cases parsed with
    | none => rw [run_parse_fail estCost maxTokens env qs t hf hne hllm]
    | some entries => rw [run_parsed estCost maxTokens env qs entries t hf hne hllm]

/-- Witness for C1 (amended) at a concrete input: two small records under
budget 5. -/
theorem C1_amended_witness :
    ∃ B, (processProjectQueryStats exCost 5 envTwoSmall).llmBatch = some B ∧
      (∃ k, B = [qA, qB].take k) ∧ costSum exCost B < 5 ∧
      ∀ j, j ≤ [qA, qB].length → costSum exCost ([qA, qB].take j) < 5 →
        j ≤ B.length :=
  C1_amended exCost 5 envTwoSmall [qA, qB] rfl (by decide) (by decide)

/-- C2 is refuted: the early `return 0` fires only when the FETCH is null
or empty.  When records were fetched but the trim discarded all of them
(here a single record of cost 5 against budget 5), the driver still sends
the LLM request — with an empty batch in the prompt — and the returned
count follows the normal response path (1 parsed entry here, not 0). -/
theorem C2_counterexample :
    trimQueries exCost [fiveQ] 5 = [] ∧
    (processProjectQueryStats exCost 5 envTrimAll).llmBatch = some [] ∧
    (processProjectQueryStats exCost 5 envTrimAll).returned = 1 := by decide

/-- C2 (amended): only when the store fetch yields no records (null or an
empty page) does the driver return 0 immediately, issuing no delete, no
LLM request, no metering write and no update. -/
theorem C2_amended (estCost : CostFn) (maxTokens : Nat) (env : ProjectEnv)
    (h : env.fetched = none ∨ env.fetched = some []) :
    processProjectQueryStats estCost maxTokens env = ⟨[], none, none, [], 0⟩ := by
  rcases h with h | h
  · exact run_fetch_none estCost maxTokens env h
  · exact run_fetch_nil estCost maxTokens env h

/-- Witness for C2 (amended): a null fetch produces the all-empty trace. -/
theorem C2_amended_witness :
    processProjectQueryStats exCost 5 envFetchNone = ⟨[], none, none, [], 0⟩ :=
  C2_amended exCost 5 envFetchNone (Or.inl rfl)

/-- C3: the greedy trim's batch has total estimated cost strictly below
the budget threshold, and the invariant holds after every individual
addition (every prefix of the batch is under budget too).  The budget in
the source is the fixed positive constant
`CONTEXT_TOKENS_CUTOFF_GPT_3_5_TURBO * 0.5`, hence the positivity
hypothesis. -/
theorem C3_batch_under_budget (estCost : CostFn) (queries : List QueryStatData)
    (maxTokens : Nat) (hpos : 0 < maxTokens) :
    costSum estCost (trimQueries estCost queries maxTokens) < maxTokens ∧
    ∀ k, costSum estCost ((trimQueries estCost queries maxTokens).take k) <
      maxTokens :=
  ⟨trimQueries_sum_lt _ _ _ hpos, fun k => trimQueries_take_sum_lt _ _ _ hpos k⟩

/-- Witness for C3 at a concrete input. -/
theorem C3_witness :
    0 < 5 ∧
    (costSum exCost (trimQueries exCost [qA, qB] 5) < 5 ∧
      ∀ k, costSum exCost ((trimQueries exCost [qA, qB] 5).take k) < 5) :=
  ⟨by decide, C3_batch_under_budget exCost [qA, qB] 5 (by decide)⟩

/-- C4: a fetched record whose individual estimated cost strictly exceeds
the overflow threshold has its id in the issued delete and is never a
member of the batch submitted to the LLM. -/
theorem C4_overflow_evicted (estCost : CostFn) (maxTokens : Nat)
    (env : ProjectEnv) (qs : List QueryStatData) (q : QueryStatData)
    (hf : env.fetched = some qs) (hq : q ∈ qs) (hbig : maxTokens < estCost q) :
    q.id ∈ (processProjectQueryStats estCost maxTokens env).deletedIds ∧
    ∀ B, (processProjectQueryStats estCost maxTokens env).llmBatch = some B →
      q ∉ B := by
  have hne : qs ≠ [] := by
    intro hnil
    subst hnil
    exact absurd hq (List.not_mem_nil q)
  have hshape : (processProjectQueryStats estCost maxTokens env).deletedIds =
      overflowingQueryIds estCost qs maxTokens ∧
      (processProjectQueryStats estCost maxTokens env).llmBatch =
        some (trimQueries estCost qs maxTokens) := by
    cases hllm : env.llm with
    | apiError =>
      rw [run_apiError estCost maxTokens env qs hf hne hllm]
      exact ⟨rfl, rfl⟩
    | success t parsed =>
      cases parsed with
      | none =>
        rw [run_parse_fail estCost maxTokens env qs t hf hne hllm]
        exact ⟨rfl, rfl⟩
      | some entries =>
        rw [run_parsed estCost maxTokens env qs entries t hf hne hllm]
        exact ⟨rfl, rfl⟩
  refine ⟨?_, ?_⟩
  · rw [hshape.1]
    simp only [overflowingQueryIds]
    exact List.mem_filterMap.mpr ⟨q, hq, by rw [if_pos hbig]⟩
  · intro B hB
    rw [hshape.2] at hB
    injection hB with hB
    subst hB
    exact not_mem_trimQueries estCost maxTokens q (Nat.le_of_lt hbig) qs

/-- Witness for C4: the oversized record of `envMixed` is deleted and kept
out of the submitted batch. -/
theorem C4_witness :
    bigQ.id ∈ (processProjectQueryStats exCost 5 envMixed).deletedIds ∧
    ∀ B, (processProjectQueryStats exCost 5 envMixed).llmBatch = some B →
      bigQ ∉ B :=
  C4_overflow_evicted exCost 5 envMixed [bigQ, qA] bigQ rfl (by decide) (by decide)

/-- C5: when the completion parses as an array of entries, the driver
issues one `processed = true` update per parsed entry, with the
model-returned prompt/response, and returns the number of parsed entries.
The environment's per-id update-error oracle is universally quantified
here and absent from the conclusion: a failing update neither blocks the
other entries' updates nor changes the returned count. -/
theorem C5_updates_per_entry (estCost : CostFn) (maxTokens : Nat)
    (env : ProjectEnv) (qs entries : List QueryStatData) (t : Nat)
    (hf : env.fetched = some qs) (hne : qs ≠ [])
    (hllm : env.llm = LLMResult.success t (some entries)) :
    (processProjectQueryStats estCost maxTokens env).updates =
      entries.map entryUpdate ∧
    (processProjectQueryStats estCost maxTokens env).returned =
      entries.length := by
  rw [run_parsed estCost maxTokens env qs entries t hf hne hllm]
  exact ⟨rfl, rfl⟩

/-- Witness for C5 at a concrete input. -/
theorem C5_witness :
    (processProjectQueryStats exCost 5 envMixed).updates =
      [entA].map entryUpdate ∧
    (processProjectQueryStats exCost 5 envMixed).returned = 1 :=
  C5_updates_per_entry exCost 5 envMixed [bigQ, qA] [entA] 2 rfl (by decide) rfl

/-- C6: on an API-reported error, or when the completion text does not
parse, the driver issues no row update and returns 0. -/
theorem C6_error_no_updates (estCost : CostFn) (maxTokens : Nat)
    (env : ProjectEnv)
    (h : env.llm = LLMResult.apiError ∨
      ∃ t, env.llm = LLMResult.success t none) :
    (processProjectQueryStats estCost maxTokens env).updates = [] ∧
    (processProjectQueryStats estCost maxTokens env).returned = 0 := by
  cases hf : env.fetched with
  | none =>
    rw [run_fetch_none estCost maxTokens env hf]
    exact ⟨rfl, rfl⟩
  | some qs =>
    by_cases hne : qs = []
    · subst hne
      rw [run_fetch_nil estCost maxTokens env hf]
      exact ⟨rfl, rfl⟩
    · rcases h with h | ⟨t, h⟩
      · rw [run_apiError estCost maxTokens env qs hf hne h]
        exact ⟨rfl, rfl⟩
      · rw [run_parse_fail estCost maxTokens env qs t hf hne h]
        exact ⟨rfl, rfl⟩

/-- Witness for C6 on both error shapes. -/
theorem C6_witness :
    ((processProjectQueryStats exCost 5 envApiErr).updates = [] ∧
      (processProjectQueryStats exCost 5 envApiErr).returned = 0) ∧
    ((processProjectQueryStats exCost 5 envBadParse).updates = [] ∧
      (processProjectQueryStats exCost 5 envBadParse).returned = 0) :=
  ⟨C6_error_no_updates exCost 5 envApiErr (Or.inl rfl),
   C6_error_no_updates exCost 5 envBadParse (Or.inr ⟨9, rfl⟩)⟩

/-- C7: the issued updates are determined solely by the parsed entries
(the batch and tenant do not appear), each update matches rows by id
alone, and each update writes exactly `processed`, `prompt`, `response`:
for every table and every row, id, tenant column and any other column are
unchanged, rows whose id is not among the parsed ids are untouched, and a
row whose id equals some parsed entry's id — whether or not it was in the
batch or belongs to the tenant — ends marked processed with a matching
entry's prompt/response. -/
theorem C7_update_frame (estCost : CostFn) (maxTokens : Nat)
    (env : ProjectEnv) (qs entries : List QueryStatData) (t : Nat)
    (hf : env.fetched = some qs) (hne : qs ≠ [])
    (hllm : env.llm = LLMResult.success t (some entries)) :
    (processProjectQueryStats estCost maxTokens env).updates =
      entries.map entryUpdate ∧
    ∀ (rows : List StoreRow) (r : StoreRow), r ∈ rows →
      rowAfter (entries.map entryUpdate) r ∈
        applyUpdates rows (entries.map entryUpdate) ∧
      (rowAfter (entries.map entryUpdate) r).id = r.id ∧
      (rowAfter (entries.map entryUpdate) r).projectId = r.projectId ∧
      (rowAfter (entries.map entryUpdate) r).extra = r.extra ∧
      (r.id ∉ entries.map QueryStatData.id →
        rowAfter (entries.map entryUpdate) r = r) ∧
      (r.id ∈ entries.map QueryStatData.id →
        (rowAfter (entries.map entryUpdate) r).processed = true ∧
        ∃ e ∈ entries, e.id = r.id ∧
          (rowAfter (entries.map entryUpdate) r).prompt = e.prompt ∧
          (rowAfter (entries.map entryUpdate) r).response = e.response) := by
  constructor
  · rw [run_parsed estCost maxTokens env qs entries t hf hne hllm]
  · intro rows r hr
    refine ⟨?_, (rowAfter_frame _ r).1, (rowAfter_frame _ r).2.1,
      (rowAfter_frame _ r).2.2, ?_, ?_⟩
    · rw [applyUpdates_eq_map]
      exact List.mem_map.mpr ⟨r, hr, rfl⟩
    · intro hnm
      apply rowAfter_no_match
      intro u hu
      obtain ⟨e, he, rfl⟩ := List.mem_map.mp hu
      show r.id ≠ e.id
      intro hcontra
      exact hnm (List.mem_map.mpr ⟨e, he, hcontra.symm⟩)
    · intro hmem
      exact rowAfter_entryUpdates_match entries r hmem

/-- Witness for C7 at a concrete input: the single table row belongs to a
different tenant and was never in the batch, yet shares the parsed
entry's id. -/
theorem C7_witness :
    (processProjectQueryStats exCost 5 envMixed).updates =
      [entA].map entryUpdate ∧
    (rowAfter ([entA].map entryUpdate) exRow ∈
        applyUpdates [exRow] ([entA].map entryUpdate) ∧
      (rowAfter ([entA].map entryUpdate) exRow).id = exRow.id ∧
      (rowAfter ([entA].map entryUpdate) exRow).projectId = exRow.projectId ∧
      (rowAfter ([entA].map entryUpdate) exRow).extra = exRow.extra ∧
      (exRow.id ∉ [entA].map QueryStatData.id →
        rowAfter ([entA].map entryUpdate) exRow = exRow) ∧
      (exRow.id ∈ [entA].map QueryStatData.id →
        (rowAfter ([entA].map entryUpdate) exRow).processed = true ∧
        ∃ e ∈ [entA], e.id = exRow.id ∧
          (rowAfter ([entA].map entryUpdate) exRow).prompt = e.prompt ∧
          (rowAfter ([entA].map entryUpdate) exRow).response = e.response)) := by
  have h := C7_update_frame exCost 5 envMixed [bigQ, qA] [entA] 2 rfl
    (by decide) rfl
  exact ⟨h.1, h.2 [exRow] exRow (by decide)⟩

/-- C8: whenever the LLM call succeeds (no API-reported error), the
model's reported total token usage is recorded with the fixed source
label, regardless of whether the completion text parses afterwards
(`parsed` is universally quantified, covering the parse-failure case). -/
theorem C8_usage_recorded (estCost : CostFn) (maxTokens : Nat)
    (env : ProjectEnv) (qs : List QueryStatData) (t : Nat)
    (parsed : Option (List QueryStatData)) (hf : env.fetched = some qs)
    (hne : qs ≠ []) (hllm : env.llm = LLMResult.success t parsed) :
    (processProjectQueryStats estCost maxTokens env).tokensRecorded =
      some (t, "query-stats") := by
  cases parsed with
  | none => rw [run_parse_fail estCost maxTokens env qs t hf hne hllm]
  | some entries => rw [run_parsed estCost maxTokens env qs entries t hf hne hllm]

/-- Witness for C8: usage is recorded even when the completion text does
not parse. -/
theorem C8_witness :
    (processProjectQueryStats exCost 5 envBadParse).tokensRecorded =
      some (9, "query-stats") :=
  C8_usage_recorded exCost 5 envBadParse [qA] 9 none rfl (by decide) rfl

/-- C9: every id in the issued delete belongs to a fetched record whose
individual estimated cost strictly exceeds the overflow threshold, and
every issued update sets `processed` to `true` (none ever resets it). -/
theorem C9_only_overflow_deletes (estCost : CostFn) (maxTokens : Nat)
    (env : ProjectEnv) :
    (∀ i ∈ (processProjectQueryStats estCost maxTokens env).deletedIds,
      ∃ qs, env.fetched = some qs ∧
        ∃ q ∈ qs, q.id = i ∧ maxTokens < estCost q) ∧
    (∀ u ∈ (processProjectQueryStats estCost maxTokens env).updates,
      u.processed = true) := by
  cases hf : env.fetched with
  | none =>
    rw [run_fetch_none estCost maxTokens env hf]
    exact ⟨fun i hi => absurd hi (List.not_mem_nil i),
      fun u hu => absurd hu (List.not_mem_nil u)⟩
  | some qs =>
    by_cases hne : qs = []
    · subst hne
      rw [run_fetch_nil estCost maxTokens env hf]
      exact ⟨fun i hi => absurd hi (List.not_mem_nil i),
        fun u hu => absurd hu (List.not_mem_nil u)⟩
    · have hdel : ∀ i ∈ overflowingQueryIds estCost qs maxTokens,
          ∃ qs', (some qs : Option (List QueryStatData)) = some qs' ∧
            ∃ q ∈ qs', q.id = i ∧ maxTokens < estCost q := by
        intro i hi
        simp only [overflowingQueryIds] at hi
        obtain ⟨q, hq, hqi⟩ := List.mem_filterMap.mp hi
        by_cases hover : maxTokens < estCost q
        · rw [if_pos hover] at hqi
          injection hqi with hqi
          exact ⟨qs, rfl, q, hq, hqi, hover⟩
        · rw [if_neg hover] at hqi
          cases hqi
      cases hllm : env.llm with
      | apiError =>
        rw [run_apiError estCost maxTokens env qs hf hne hllm]
        exact ⟨hdel, fun u hu => absurd hu (List.not_mem_nil u)⟩
      | success t parsed =>
        cases parsed with
        | none =>
          rw [run_parse_fail estCost maxTokens env qs t hf hne hllm]
          exact ⟨hdel, fun u hu => absurd hu (List.not_mem_nil u)⟩
        | some entries =>
          rw [run_parsed estCost maxTokens env qs entries t hf hne hllm]
          refine ⟨hdel, ?_⟩
          intro u hu
          obtain ⟨e, he, rfl⟩ := List.mem_map.mp hu
          rfl

/-- Witness for C9: the delete issued in `envMixed` is justified by the
oversized record, and the one issued update sets `processed` to true. -/
theorem C9_witness :
    (∃ qs, envMixed.fetched = some qs ∧
      ∃ q ∈ qs, q.id = "0123456789" ∧ 5 < exCost q) ∧
    (entryUpdate entA).processed = true :=
  ⟨(C9_only_overflow_deletes exCost 5 envMixed).1 "0123456789" (by decide),
   (C9_only_overflow_deletes exCost 5 envMixed).2 (entryUpdate entA) (by decide)⟩

/-- C10: a request whose method is not GET (a missing method included)
gets status 405, an `Allow: GET` header, an error body, no ok body and no
processing; a GET request is never rejected this way. -/
theorem C10_method_guard (estCost : CostFn) (maxTokens : Nat)
    (env : HandlerEnv) :
    (env.method ≠ some "GET" →
      (handler estCost maxTokens env).status = 405 ∧
      (handler estCost maxTokens env).allowHeader = some ["GET"] ∧
      (∃ s, (handler estCost maxTokens env).errorBody = some s) ∧
      (handler estCost maxTokens env).okBody = none ∧
      (handler estCost maxTokens env).runs = []) ∧
    (env.method = some "GET" →
      (handler estCost maxTokens env).status = 200 ∧
      (handler estCost maxTokens env).allowHeader = none ∧
      (handler estCost maxTokens env).errorBody = none) := by
  constructor
  · intro hm
    have hma : methodAllowed env.method = false := by
      cases hmeth : env.method with
      | none => rfl
      | some m =>
        have hne : m ≠ "GET" := by
          intro h
          subst h
          exact hm hmeth
        simp [methodAllowed, allowedMethods, hne]
    refine ⟨?_, ?_, ⟨"Method " ++ methodText env.method ++ " Not Allowed", ?_⟩,
      ?_, ?_⟩ <;> simp [handler, hma, allowedMethods]
  · intro hm
    have hma : methodAllowed env.method = true := by
      rw [hm]
      decide
    by_cases hp : optTruthy env.projectIdParam = true
    · refine ⟨?_, ?_, ?_⟩ <;> simp [handler, hma, hp]
    · have hp' : optTruthy env.projectIdParam = false :=
        Bool.eq_false_iff.mpr hp
      cases hup : env.unprocessedProjects with
      | none => refine ⟨?_, ?_, ?_⟩ <;> simp [handler, hma, hp', hup]
      | some rows => refine ⟨?_, ?_, ?_⟩ <;> simp [handler, hma, hp', hup]

/-- Witness for C10: a POST request is rejected with 405 and `Allow: GET`. -/
theorem C10_witness :
    (handler exCost 5 envPOST).status = 405 ∧
    (handler exCost 5 envPOST).allowHeader = some ["GET"] ∧
    (∃ s, (handler exCost 5 envPOST).errorBody = some s) ∧
    (handler exCost 5 envPOST).okBody = none ∧
    (handler exCost 5 envPOST).runs = [] :=
  (C10_method_guard exCost 5 envPOST).1 (by decide)

end QueryStats
